import Mathlib

/-!
Verification of `crt_cp.py` (SynologyAutoSSL).

The script copies a fixed set of three certificate files from a staging
directory `ARCHIVE_PATH/<src_dir_name>` into per-service destination
directories, driven by a JSON manifest stored at `ARCHIVE_PATH/INFO`.

Shallow embedding conventions:
* Paths are lists of atomic components (`pathlib` joins with single-component
  operands; component strings are treated as opaque, so names containing a
  separator are out of the model).
* The filesystem is a finite association list of file paths to contents plus
  a list of existing directories.  File contents are either raw text that is
  not valid JSON (`Content.text`) or bytes that parse as a JSON value
  (`Content.json`), which models `json.loads` by its contract.
* Python exceptions become the `Exn` type; a function that the source wraps
  in `try/except` returns a plain value, a function that can raise returns
  the exception in the first component of its result together with the
  filesystem state and the observable events (log lines, file reads, copy
  attempts) that happened before the raise.
* `shutil.copy2` is modelled as: redirect into `dst` when `dst` is an
  existing directory (using the source basename), raise `SameFileError` when
  the final source and destination coincide, raise when the source is
  missing or a directory, when the destination parent directory is missing,
  or when the final destination is a directory; otherwise overwrite the
  destination with the source content.  Metadata (timestamps/permissions)
  is outside the model.
* `pathlib.Path.mkdir(parents=True, exist_ok=True)` creates every missing
  ancestor and fails when an existing file blocks one of the components.
* Log formatting (colors, timestamps) is presentation only; messages are
  modelled as the interpolated strings of the source f-strings.
-/

/-- Filesystem paths as lists of atomic components (absolute, rooted). -/
abbrev FPath := List String

/-- JSON values, as produced by a successful `json.loads`. -/
inductive Json where
  | null
  | bool (b : Bool)
  | num (n : Int)
  | str (s : String)
  | arr (elems : List Json)
  | obj (fields : List (String × Json))

/-- File contents: either bytes that are not valid JSON, or bytes parsing
to a JSON value. -/
inductive Content where
  | text (s : String)
  | json (j : Json)

/-- The Python exceptions that the script can encounter. -/
inductive Exn where
  | fileNotFound (p : FPath)
  | isADir (p : FPath)
  | fileExists (p : FPath)
  | sameFile (p : FPath)
  | jsonDecode
  | keyError (k : String)
  | typeError (m : String)

/-- A filesystem state: files with contents, and existing directories. -/
structure FS where
  files : List (FPath × Content)
  dirs : List FPath

/-- Observable events of one run: file reads/copy attempts and log lines. -/
inductive Event where
  | readFile (p : FPath)
  | copyAttempt (src dest : FPath)
  | logInfo (msg : String)
  | logWarn (msg : String)
  | logError (msg : String)
  | usageErr
deriving DecidableEq

/-- Source constant `CERT_FILES = ("cert.pem", "privkey.pem", "fullchain.pem")`. -/
def CERT_FILES : List String := ["cert.pem", "privkey.pem", "fullchain.pem"]

/-- Source constant `BASE_PATH = Path("/usr/syno/etc/certificate")`. -/
def BASE_PATH : FPath := ["usr", "syno", "etc", "certificate"]

/-- Source constant `PKG_BASE_PATH = Path("/usr/local/etc/certificate")`. -/
def PKG_BASE_PATH : FPath := ["usr", "local", "etc", "certificate"]

/-- Source constant `ARCHIVE_PATH = BASE_PATH / "_archive"`. -/
def ARCHIVE_PATH : FPath := BASE_PATH ++ ["_archive"]

/-- Render a path the way `pathlib` prints an absolute `Path`. -/
def pathStr (p : FPath) : String := "/" ++ String.intercalate "/" p

/-- Last component of a path (the `basename`). -/
def lastComp (p : FPath) : String := p.getLast?.getD ""

/-- First binding of a path in an association list of files. -/
def lookupList : List (FPath × Content) → FPath → Option Content
  | [], _ => none
  | e :: rest, p => if e.1 = p then some e.2 else lookupList rest p

/-- Look up the content stored for a file path. -/
def lookupFile (fs : FS) (p : FPath) : Option Content :=
  lookupList fs.files p

/-- Overwrite (or create) the entry for path `p` with content `v`. -/
def setEntry (p : FPath) (v : Content) : List (FPath × Content) → List (FPath × Content)
  | [] => [(p, v)]
  | e :: rest => if e.1 = p then (p, v) :: rest else e :: setEntry p v rest

/-- All non-empty prefixes of a path: the chain of directories that
`mkdir(parents=True)` has to provide. -/
def prefixes (p : FPath) : List FPath :=
  (List.range p.length).map (fun i => p.take (i + 1))

/-- Append each path of `l` to `ds` unless already present. -/
def addDirs (ds : List FPath) (l : List FPath) : List FPath :=
  l.foldl (fun acc q => if q ∈ acc then acc else acc ++ [q]) ds

/-- Model of `target_dir.mkdir(parents=True, exist_ok=True)`: create every missing
ancestor directory; fail when an existing file blocks a component. -/
def mkdir_p (fs : FS) (p : FPath) : Except Exn FS :=
  if (prefixes p).any (fun q => (lookupFile fs q).isSome) then
    .error (.fileExists p)
  else
    .ok { fs with dirs := addDirs fs.dirs (prefixes p) }

/-- Model of `Path.read_text()`: return the file content, or raise. -/
def read_text (fs : FS) (p : FPath) : Except Exn Content :=
  match lookupFile fs p with
  | some c => .ok c
  | none => if p ∈ fs.dirs then .error (.isADir p) else .error (.fileNotFound p)

/-- Model of `json.loads`, by its contract on the `Content` type. -/
def json_loads : Content → Except Exn Json
  | .json j => .ok j
  | .text _ => .error .jsonDecode

/-- Python `key in value` for a JSON value: dict key membership, list element
membership, substring test on strings; `TypeError` otherwise. -/
def json_contains (j : Json) (key : String) : Except Exn Bool :=
  match j with
  | .obj kvs => .ok (kvs.any (fun kv => kv.1 = key))
  | .arr xs => .ok (xs.any (fun x => match x with | .str s => s = key | _ => false))
  | .str s => .ok (decide (key.toList <:+: s.toList))
  | _ => .error (.typeError "argument is not iterable")

/-- Python `value[key]` for a JSON value: dict lookup (`KeyError` when the
key is absent), `TypeError` on any non-dict value. -/
def json_index (j : Json) (key : String) : Except Exn Json :=
  match j with
  | .obj kvs =>
    match kvs.find? (fun kv => kv.1 = key) with
    | some kv => .ok kv.2
    | none => .error (.keyError key)
  | _ => .error (.typeError "indices must be integers")

/-- Python `for x in value`: lists yield elements, strings yield their
characters, dicts yield their keys; `TypeError` otherwise. -/
def json_iter (j : Json) : Except Exn (List Json) :=
  match j with
  | .arr xs => .ok xs
  | .str s => .ok (s.toList.map (fun c => .str (String.singleton c)))
  | .obj kvs => .ok (kvs.map (fun kv => .str kv.1))
  | _ => .error (.typeError "object is not iterable")

/-- Python truthiness of a JSON value. -/
def truthy : Json → Bool
  | .null => false
  | .bool b => b
  | .num n => n != 0
  | .str s => s ≠ ""
  | .arr xs => !xs.isEmpty
  | .obj kvs => !kvs.isEmpty

/-- How an f-string renders a JSON value via `str()`. -/
def jsonToPyStr : Json → String
  | .str s => s
  | .bool true => "True"
  | .bool false => "False"
  | .null => "None"
  | .num n => toString n
  | .arr _ => "[list]"
  | .obj _ => "\x7bdict\x7d"

/-- How an f-string renders `str(e)` for an exception. -/
def exnStr : Exn → String
  | .fileNotFound p => "[Errno 2] No such file or directory: " ++ pathStr p
  | .isADir p => "[Errno 21] Is a directory: " ++ pathStr p
  | .fileExists p => "[Errno 17] File exists: " ++ pathStr p
  | .sameFile p => pathStr p ++ " are the same file"
  | .jsonDecode => "Expecting value"
  | .keyError k => k
  | .typeError m => m

/-- Message of `log.error(f"load INFO file- {archive_path/'INFO'} fail: {cause}")`. -/
def msgLoadFail (archive_path : FPath) (cause : String) : String :=
  "load INFO file- " ++ pathStr (archive_path ++ ["INFO"]) ++ " fail: " ++ cause

/-- Message of `log.warning(f"copy from {src} to {dest} fail: {e}")`. -/
def msgCopyFail (src dest : FPath) (e : Exn) : String :=
  "copy from " ++ pathStr src ++ " to " ++ pathStr dest ++ " fail: " ++ exnStr e

/-- Final destination of `shutil.copy2`: when `dst` names an existing
directory the file is copied into it under the source basename. -/
def destOf (fs : FS) (src dest0 : FPath) : FPath :=
  if dest0 ∈ fs.dirs then dest0 ++ [lastComp src] else dest0

/-- Model of `shutil.copy2(src, dest)` (content only; metadata is out of the model). -/
def copy2 (fs : FS) (src dest0 : FPath) : Except Exn FS :=
  if src = destOf fs src dest0 then .error (.sameFile src)
  else
    match lookupFile fs src with
    | none => if src ∈ fs.dirs then .error (.isADir src) else .error (.fileNotFound src)
    | some c =>
      if (destOf fs src dest0).dropLast ∈ fs.dirs then
        if destOf fs src dest0 ∈ fs.dirs then .error (.isADir (destOf fs src dest0))
        else .ok { fs with files := setEntry (destOf fs src dest0) c fs.files }
      else .error (.fileNotFound (destOf fs src dest0))

/-- The `for cert_file in CERT_FILES` loop of `copy_certificates`: each file
is attempted, a failed copy is logged as a warning and flips `success` to
`False`, and the loop continues (lines 54-64 of `crt_cp.py`). -/
def copy_files (src_dir target_dir : FPath) (files : List String) (fs : FS) :
    Bool × FS × List Event :=
  match files with
  | [] => (true, fs, [])
  | f :: rest =>
    let src := src_dir ++ [f]
    let dest := target_dir ++ [f]
    match copy2 fs src dest with
    | .ok fs1 =>
      match copy_files src_dir target_dir rest fs1 with
      | (b, fs2, tr) => (b, fs2, Event.copyAttempt src dest :: tr)
    | .error e =>
      match copy_files src_dir target_dir rest fs with
      | (_, fs2, tr) =>
        (false, fs2,
          Event.copyAttempt src dest :: Event.logWarn (msgCopyFail src dest e) :: tr)

/-- Line 50 of `crt_cp.py`:
`(PKG_BASE_PATH if service["isPkg"] else BASE_PATH) / service["subscriber"] / service["service"]`,
with the Python evaluation order of lookups and joins (`/` with a non-string
right operand raises `TypeError`). -/
def targetDirOf (service : Json) : Except Exn FPath :=
  match json_index service "isPkg" with
  | .error e => .error e
  | .ok pkg =>
    match json_index service "subscriber" with
    | .error e => .error e
    | .ok subJ =>
      match subJ with
      | .str sub =>
        match json_index service "service" with
        | .error e => .error e
        | .ok svcJ =>
          match svcJ with
          | .str svcn =>
            .ok ((if truthy pkg then PKG_BASE_PATH else BASE_PATH) ++ [sub, svcn])
          | _ => .error (.typeError "unsupported operand for path join")
      | _ => .error (.typeError "unsupported operand for path join")

/-- Function `copy_certificates(src_dir, service)` (lines 38-64): compute the target
directory, create it, log a progress line naming `display_name`, then copy
the three certificate files best-effort.  The dict accesses and `mkdir` are
outside any `try`, so they raise; only the per-file copies are guarded. -/
def copy_certificates (src_dir : FPath) (service : Json) (fs : FS) :
    Except Exn Bool × FS × List Event :=
  match targetDirOf service with
  | .error e => (.error e, fs, [])
  | .ok target_dir =>
    match mkdir_p fs target_dir with
    | .error e => (.error e, fs, [])
    | .ok fs1 =>
      match json_index service "display_name" with
      | .error e => (.error e, fs1, [])
      | .ok dn =>
        match copy_files src_dir target_dir CERT_FILES fs1 with
        | (b, fs2, tr) =>
          (.ok b, fs2, Event.logInfo ("Copy cert for " ++ jsonToPyStr dn) :: tr)

/-- Function `load_service_info(archive_path, src_dir_name)` (lines 66-95): read and
parse `archive_path/INFO`, check that `src_dir_name` is a key, and return
the nested `services` value.  Every exception is caught and mapped to
`([], False)` with a logged error; the branch order follows the
`except FileNotFoundError / except json.JSONDecodeError / except Exception`
clauses of the source. -/
def load_service_info (archive_path : FPath) (src_dir_name : String) (fs : FS) :
    (Json × Bool) × List Event :=
  let rd := Event.readFile (archive_path ++ ["INFO"])
  match read_text fs (archive_path ++ ["INFO"]) with
  | .error (.fileNotFound _) =>
    ((.arr [], false), [rd, Event.logError (msgLoadFail archive_path "File not found")])
  | .error e =>
    ((.arr [], false), [rd, Event.logError (msgLoadFail archive_path (exnStr e))])
  | .ok content =>
    match json_loads content with
    | .error _ =>
      ((.arr [], false), [rd, Event.logError (msgLoadFail archive_path "Invalid JSON")])
    | .ok services =>
      match json_contains services src_dir_name with
      | .error e =>
        ((.arr [], false), [rd, Event.logError (msgLoadFail archive_path (exnStr e))])
      | .ok false =>
        ((.arr [], false),
          [rd, Event.logError
            ("Source directory " ++ src_dir_name ++ " not found in INFO file")])
      | .ok true =>
        match json_index services src_dir_name with
        | .error e =>
          ((.arr [], false), [rd, Event.logError (msgLoadFail archive_path (exnStr e))])
        | .ok entry =>
          match json_index entry "services" with
          | .error e =>
            ((.arr [], false), [rd, Event.logError (msgLoadFail archive_path (exnStr e))])
          | .ok svcs => ((svcs, true), [rd])

/-- The generator expression `all(copy_certificates(src_dir, service) for
service in services)` of line 113: services are evaluated in order and
`all` stops at the first `False` (Python generators are lazy), and any
exception raised by `copy_certificates` propagates. -/
def run_services (src_dir : FPath) (svcs : List Json) (fs : FS) :
    Except Exn Bool × FS × List Event :=
  match svcs with
  | [] => (.ok true, fs, [])
  | s :: rest =>
    match copy_certificates src_dir s fs with
    | (.error e, fs1, tr) => (.error e, fs1, tr)
    | (.ok false, fs1, tr) => (.ok false, fs1, tr)
    | (.ok true, fs1, tr) =>
      match run_services src_dir rest fs1 with
      | (r, fs2, tr2) => (r, fs2, tr ++ tr2)

/-- Function `process_certificates(src_dir_name)` (lines 97-113): resolve the manifest,
return `False` when resolution failed, otherwise iterate the `services`
value (a `TypeError` when it is not iterable propagates, as in Python) and
run the short-circuiting conjunction over the per-service copies. -/
def process_certificates (src_dir_name : String) (fs : FS) :
    Except Exn Bool × FS × List Event :=
  let src_dir := ARCHIVE_PATH ++ [src_dir_name]
  match load_service_info ARCHIVE_PATH src_dir_name fs with
  | ((svcs, true), tr) =>
    match json_iter svcs with
    | .error e => (.error e, fs, tr)
    | .ok l =>
      match run_services src_dir l fs with
      | (r, fs2, tr2) => (r, fs2, tr ++ tr2)
  | ((_, false), tr) => (.ok false, fs, tr)

/-- Outcome of one process invocation: a `sys.exit` code or an uncaught
exception escaping `main`. -/
inductive MainResult where
  | exited (code : Nat) (fs : FS) (events : List Event)
  | crashed (e : Exn) (fs : FS) (events : List Event)

/-- Function `main()` (lines 115-121): `sys.argv` must have exactly two entries
(program name and the source directory); otherwise a usage message goes to
stderr and the process exits 1 before any processing. -/
def main_fn (argv : List String) (fs : FS) : MainResult :=
  if argv.length ≠ 2 then .exited 1 fs [Event.usageErr]
  else
    match process_certificates (argv.getD 1 "") fs with
    | (.ok b, fs1, tr) => .exited (if b then 0 else 1) fs1 tr
    | (.error e, fs1, tr) => .crashed e fs1 tr

/-- Exit status observed by the operating system: CPython terminates with
status 1 when an exception escapes `main`. -/
def osExitCode : MainResult → Nat
  | .exited c _ _ => c
  | .crashed _ _ _ => 1

/-- Source paths touched by a trace: explicit file reads and the source side
of every attempted copy. -/
def readsOf : List Event → List FPath
  | [] => []
  | Event.readFile p :: rest => p :: readsOf rest
  | Event.copyAttempt src _ :: rest => src :: readsOf rest
  | _ :: rest => readsOf rest

/-- The attempted copies of a trace, in order. -/
def attemptsOf : List Event → List (FPath × FPath)
  | [] => []
  | Event.copyAttempt s d :: rest => (s, d) :: attemptsOf rest
  | _ :: rest => attemptsOf rest

/-- The warning messages of a trace, in order. -/
def warnsOf : List Event → List String
  | [] => []
  | Event.logWarn m :: rest => m :: warnsOf rest
  | _ :: rest => warnsOf rest

/-- The manifest file path used by the script. -/
def infoPath : FPath := ARCHIVE_PATH ++ ["INFO"]

/-- A well-formed service descriptor (system-root destination `acme/web`). -/
def svcAcme : Json :=
  .obj [("isPkg", .bool false), ("subscriber", .str "acme"),
        ("service", .str "web"), ("display_name", .str "ACME Web")]

/-- A second well-formed service descriptor (`beta/mail`). -/
def svcBeta : Json :=
  .obj [("isPkg", .bool false), ("subscriber", .str "beta"),
        ("service", .str "mail"), ("display_name", .str "SVC2")]

/-- A manifest registering batch `b1` with the two services above. -/
def manifest2 : Json := .obj [("b1", .obj [("services", .arr [svcAcme, svcBeta])])]

/-- State with the two-service manifest but no staged files: every copy of
the first service fails, exercising the short-circuit of `all(...)`. -/
def fsC1 : FS := ⟨[(infoPath, .json manifest2)], []⟩

/-- State whose manifest registers `b1` with one descriptor that has no
fields at all (`{}`), so `service["isPkg"]` raises `KeyError`. -/
def fsC2 : FS :=
  ⟨[(infoPath, .json (.obj [("b1", .obj [("services", .arr [.obj []])])]))], []⟩

/-- State with no manifest file at all (`FileNotFoundError`). -/
def fsNoInfo : FS := ⟨[], []⟩

/-- State whose manifest file is not valid JSON (`JSONDecodeError`). -/
def fsBadJson : FS := ⟨[(infoPath, .text "garbage")], []⟩

/-- State whose manifest is well-formed but does not register `b1`. -/
def fsNoBatch : FS :=
  ⟨[(infoPath, .json (.obj [("other", .obj [("services", .arr [])])]))], []⟩

/-- State where the INFO path is a directory: `read_text` raises
`IsADirectoryError`, reaching the generic `except Exception` clause. -/
def fsDirInfo : FS := ⟨[], [infoPath]⟩

/-- State whose manifest parses to a JSON number: the `in` test raises
`TypeError`, reaching the generic `except Exception` clause. -/
def fsNumTop : FS := ⟨[(infoPath, .json (.num 3))], []⟩

/-- State whose manifest registers `b1` with a record that lacks the
`services` key (`KeyError` in the generic clause). -/
def fsNoServices : FS := ⟨[(infoPath, .json (.obj [("b1", .obj [])]))], []⟩

/-- The staging directory for batch `b1`. -/
def sdB1 : FPath := ARCHIVE_PATH ++ ["b1"]

/-- State where the staging of `b1` has `cert.pem` and `fullchain.pem` but
is missing `privkey.pem`. -/
def fsPartial : FS :=
  ⟨[(infoPath, .json (.obj [("b1", .obj [("services", .arr [svcAcme])])])),
    (sdB1 ++ ["cert.pem"], .text "CERT"),
    (sdB1 ++ ["fullchain.pem"], .text "CHAIN")], []⟩

/-- State where batch `b1` is fully staged for a one-service manifest:
`process_certificates` succeeds end to end. -/
def fsFull : FS :=
  ⟨[(infoPath, .json (.obj [("b1", .obj [("services", .arr [svcAcme])])])),
    (sdB1 ++ ["cert.pem"], .text "CERT"),
    (sdB1 ++ ["privkey.pem"], .text "KEY"),
    (sdB1 ++ ["fullchain.pem"], .text "CHAIN")], []⟩

/-- Relation between a filesystem state and any state reachable from it by
the copy phase of one batch with staging directory `sd`: directories only
grow and new directories are destination chains of at most six components;
files of at most six components (in particular the manifest) and files
directly inside `sd` (the staged certificates) are untouched; and any path
whose content changed now holds the staged content named by its basename. -/
def Evolves (sd : FPath) (a b : FS) : Prop :=
  (∀ q, q ∈ a.dirs → q ∈ b.dirs) ∧
  (∀ q, q ∈ b.dirs → q ∈ a.dirs ∨ q.length ≤ 6) ∧
  (∀ p : FPath, p.length ≤ 6 → lookupFile b p = lookupFile a p) ∧
  (∀ p : FPath, p.dropLast = sd → lookupFile b p = lookupFile a p) ∧
  (∀ p : FPath, lookupFile b p = lookupFile a p ∨
    lookupFile b p = lookupFile a (sd ++ [lastComp p]))

/-! Basic lemmas about the filesystem primitives. -/

theorem mem_addDirs {q : FPath} : ∀ (l ds : List FPath),
    q ∈ addDirs ds l ↔ q ∈ ds ∨ q ∈ l := by
  intro l
  induction l with
  | nil => intro ds; simp [addDirs]
  | cons a rest ih =>
    intro ds
    unfold addDirs at ih ⊢
    by_cases ha : a ∈ ds
    · simp only [List.foldl_cons, if_pos ha]
      rw [ih ds]
      constructor
      · rintro (h | h) <;> simp_all
      · rintro (h | h)
        · exact Or.inl h
        · rcases List.mem_cons.mp h with rfl | h
          · exact Or.inl ha
          · exact Or.inr h
    · simp only [List.foldl_cons, if_neg ha]
      rw [ih (ds ++ [a])]
      simp only [List.mem_append, List.mem_singleton, List.mem_cons]
      tauto

theorem lookupList_setEntry (d : FPath) (c : Content) :
    ∀ (files : List (FPath × Content)) (p : FPath),
    lookupList (setEntry d c files) p =
      if p = d then some c else lookupList files p := by
  intro files
  induction files with
  | nil =>
    intro p
    by_cases h : p = d <;> simp [setEntry, lookupList, h]
    exact fun h2 => absurd h2.symm h
  | cons e rest ih =>
    intro p
    by_cases hed : e.1 = d
    · simp only [setEntry, if_pos hed]
      by_cases hpd : p = d
      · simp [lookupList, hpd]
      · simp only [lookupList]
        rw [if_neg (fun h => hpd h.symm), if_neg hpd,
          if_neg (fun h : e.1 = p => hpd (h.symm.trans hed))]
    · simp only [setEntry, if_neg hed]
      by_cases hpe : e.1 = p
      · have hpd : ¬ p = d := fun h => hed (hpe.trans h)
        simp [lookupList, hpe, hpd]
      · simp only [lookupList, if_neg hpe]
        exact ih p

theorem setEntry_self : ∀ {files : List (FPath × Content)} {d : FPath} {c : Content},
    lookupList files d = some c → setEntry d c files = files := by
  intro files
  induction files with
  | nil => intro d c h; simp [lookupList] at h
  | cons e rest ih =>
    intro d c h
    by_cases hed : e.1 = d
    · rcases e with ⟨p1, c1⟩
      simp only [lookupList, if_pos hed] at h
      simp only [Option.some.injEq] at h
      simp only [setEntry, if_pos hed]
      rw [← hed, ← h]
    · simp only [lookupList, if_neg hed] at h
      simp [setEntry, hed, ih h]

theorem mem_prefixes {q p : FPath} :
    q ∈ prefixes p ↔ ∃ i, i < p.length ∧ p.take (i + 1) = q := by
  simp [prefixes]

theorem length_of_mem_prefixes {q p : FPath} (h : q ∈ prefixes p) :
    1 ≤ q.length ∧ q.length ≤ p.length := by
  rcases mem_prefixes.mp h with ⟨i, hi, rfl⟩
  simp [List.length_take]
  omega

theorem self_mem_prefixes {p : FPath} (h : p ≠ []) : p ∈ prefixes p := by
  apply mem_prefixes.mpr
  have hpos : 0 < p.length := List.length_pos.mpr h
  refine ⟨p.length - 1, by omega, ?_⟩
  have heq : p.length - 1 + 1 = p.length := by omega
  rw [heq, List.take_length]

theorem addDirs_noop : ∀ {l ds : List FPath}, (∀ q ∈ l, q ∈ ds) → addDirs ds l = ds := by
  intro l
  induction l with
  | nil => intro ds _; rfl
  | cons a rest ih =>
    intro ds h
    unfold addDirs at ih ⊢
    simp only [List.foldl_cons, if_pos (h a (by simp))]
    exact ih (fun q hq => h q (by simp [hq]))

theorem mkdir_inv {fs fs1 : FS} {p : FPath} (h : mkdir_p fs p = .ok fs1) :
    (∀ q ∈ prefixes p, lookupFile fs q = none) ∧
    fs1 = { fs with dirs := addDirs fs.dirs (prefixes p) } := by
  unfold mkdir_p at h
  split at h
  · cases h
  · next hcond =>
    refine ⟨?_, by cases h; rfl⟩
    intro q hq
    simp only [List.any_eq_true, not_exists, not_and] at hcond
    have := hcond q hq
    simpa [Option.isSome_iff_ne_none] using this

theorem mkdir_noop {fs : FS} {p : FPath}
    (hdirs : ∀ q ∈ prefixes p, q ∈ fs.dirs)
    (hfree : ∀ q ∈ prefixes p, lookupFile fs q = none) :
    mkdir_p fs p = .ok fs := by
  unfold mkdir_p
  rw [if_neg ?hneg]
  case hneg =>
    simp only [List.any_eq_true, not_exists, not_and]
    intro q hq
    simp [hfree q hq]
  rw [addDirs_noop hdirs]

theorem copy2_inv {fs fs1 : FS} {src dest0 : FPath} (h : copy2 fs src dest0 = .ok fs1) :
    src ≠ destOf fs src dest0 ∧
    ∃ c, lookupFile fs src = some c ∧ (destOf fs src dest0).dropLast ∈ fs.dirs ∧
      destOf fs src dest0 ∉ fs.dirs ∧
      fs1 = { fs with files := setEntry (destOf fs src dest0) c fs.files } := by
  unfold copy2 at h
  by_cases hsd : src = destOf fs src dest0
  · rw [if_pos hsd] at h; cases h
  · rw [if_neg hsd] at h
    rcases hc : lookupFile fs src with _ | c
    · simp only [hc] at h
      by_cases hm : src ∈ fs.dirs
      · rw [if_pos hm] at h; cases h
      · rw [if_neg hm] at h; cases h
    · simp only [hc] at h
      by_cases hpar : (destOf fs src dest0).dropLast ∈ fs.dirs
      · rw [if_pos hpar] at h
        by_cases hdd : destOf fs src dest0 ∈ fs.dirs
        · rw [if_pos hdd] at h; cases h
        · rw [if_neg hdd] at h
          exact ⟨hsd, c, rfl, hpar, hdd, by cases h; rfl⟩
      · rw [if_neg hpar] at h; cases h

theorem copy2_ok_dirs {fs fs1 : FS} {src dest0 : FPath}
    (h : copy2 fs src dest0 = .ok fs1) : fs1.dirs = fs.dirs := by
  rcases copy2_inv h with ⟨-, c, -, -, -, rfl⟩
  rfl

theorem copyFiles_dirs (sd td : FPath) : ∀ (l : List String) (fs : FS),
    ((copy_files sd td l fs).2.1).dirs = fs.dirs := by
  intro l
  induction l with
  | nil => intro fs; rfl
  | cons f rest ih =>
    intro fs
    unfold copy_files
    rcases h2 : copy2 fs (sd ++ [f]) (td ++ [f]) with e | fs1
    · rcases hr : copy_files sd td rest fs with ⟨b, fs2, tr⟩
      have hi := ih fs
      rw [hr] at hi
      simp only [h2, hr]
      exact hi
    · rcases hr : copy_files sd td rest fs1 with ⟨b, fs2, tr⟩
      have hi := ih fs1
      rw [hr] at hi
      simp only [h2, hr]
      rw [hi]
      exact copy2_ok_dirs h2

theorem copyFiles_spec (sd td : FPath) : ∀ (l : List String) (fs : FS),
    attemptsOf (copy_files sd td l fs).2.2 = l.map (fun f => (sd ++ [f], td ++ [f])) ∧
    ((copy_files sd td l fs).1 = true ↔ warnsOf (copy_files sd td l fs).2.2 = []) := by
  intro l
  induction l with
  | nil => intro fs; exact ⟨rfl, by simp [copy_files, warnsOf]⟩
  | cons f rest ih =>
    intro fs
    unfold copy_files
    rcases h2 : copy2 fs (sd ++ [f]) (td ++ [f]) with e | fs1
    · rcases hr : copy_files sd td rest fs with ⟨b, fs2, tr⟩
      have hi := ih fs
      rw [hr] at hi
      simp only [h2, hr]
      exact ⟨by simp [attemptsOf, hi.1], by simp [warnsOf]⟩
    · rcases hr : copy_files sd td rest fs1 with ⟨b, fs2, tr⟩
      have hi := ih fs1
      rw [hr] at hi
      simp only [h2, hr]
      refine ⟨by simp [attemptsOf, hi.1], ?_⟩
      simpa [warnsOf] using hi.2

/-! Claim theorems for the simpler claims. -/

/-- C5: for every batch identifier for which manifest resolution fails,
`process_certificates` returns false, the filesystem state is completely
unchanged (so no destination directory is created or modified and nothing
is copied), and the only events are those of the resolver itself. -/
theorem claim_C5 (name : String) (fs : FS)
    (h : (load_service_info ARCHIVE_PATH name fs).1.2 = false) :
    process_certificates name fs =
      (.ok false, fs, (load_service_info ARCHIVE_PATH name fs).2) := by
  unfold process_certificates
  rcases hl : load_service_info ARCHIVE_PATH name fs with ⟨⟨svcs, ok⟩, tr⟩
  rw [hl] at h
  simp only at h
  subst h
  simp [hl]

/-- Witness for C5 at a state with no manifest file. -/
theorem claim_C5_witness :
    process_certificates "nope" fsNoInfo =
      (.ok false, fsNoInfo, (load_service_info ARCHIVE_PATH "nope" fsNoInfo).2) :=
  claim_C5 "nope" fsNoInfo rfl

/-- C9: `load_service_info` is total (its result type carries no exception):
for every archive path, batch name and state it either reports success or
returns exactly the empty list with the failure flag, and in particular a
manifest parsing to a non-object and a batch record lacking the `services`
key are both mapped to `([], False)`. -/
theorem claim_C9 :
    (∀ (ap : FPath) (name : String) (fs : FS),
      (load_service_info ap name fs).1.2 = true ∨
      (load_service_info ap name fs).1 = (Json.arr [], false)) ∧
    (load_service_info ARCHIVE_PATH "b1" fsNumTop).1 = (Json.arr [], false) ∧
    (load_service_info ARCHIVE_PATH "b1" fsNoServices).1 = (Json.arr [], false) := by
  refine ⟨?_, rfl, rfl⟩
  intro ap name fs
  unfold load_service_info
  repeat' split
  all_goals simp

/-- C4 counterexample: two different resolver error conditions — manifest
file missing versus batch key absent from a well-formed manifest — return
the identical value `([], False)` to the caller (only the log line, which
the caller does not receive, differs), so the four error conditions are not
distinguishable to the caller. -/
theorem claim_C4_counterexample :
    (load_service_info ARCHIVE_PATH "b1" fsNoInfo).1 =
      (load_service_info ARCHIVE_PATH "b1" fsNoBatch).1 ∧
    (load_service_info ARCHIVE_PATH "b1" fsNoInfo).2 ≠
      (load_service_info ARCHIVE_PATH "b1" fsNoBatch).2 :=
  ⟨rfl, by decide⟩

/-- C4 amended: on any error the resolver returns the empty sequence with a
failure outcome and never partially returns service data; the four error
conditions (manifest missing, manifest malformed, batch absent, generic
read failure) are distinguished by their logged error messages, not by the
value returned to the caller, which is `([], False)` in every error case. -/
theorem claim_C4_amended :
    (∀ (ap : FPath) (name : String) (fs : FS),
      (load_service_info ap name fs).1.2 = false →
      (load_service_info ap name fs).1.1 = Json.arr []) ∧
    ((load_service_info ARCHIVE_PATH "b1" fsNoInfo).1 = (Json.arr [], false) ∧
     (load_service_info ARCHIVE_PATH "b1" fsBadJson).1 = (Json.arr [], false) ∧
     (load_service_info ARCHIVE_PATH "b1" fsNoBatch).1 = (Json.arr [], false) ∧
     (load_service_info ARCHIVE_PATH "b1" fsDirInfo).1 = (Json.arr [], false)) ∧
    List.Pairwise (fun a b => a ≠ b)
      [(load_service_info ARCHIVE_PATH "b1" fsNoInfo).2,
       (load_service_info ARCHIVE_PATH "b1" fsBadJson).2,
       (load_service_info ARCHIVE_PATH "b1" fsNoBatch).2,
       (load_service_info ARCHIVE_PATH "b1" fsDirInfo).2] := by
  refine ⟨?_, ⟨rfl, rfl, rfl, rfl⟩, by decide⟩
  intro ap name fs
  unfold load_service_info
  repeat' split
  all_goals simp

/-- Witness for the amended C4 at the missing-manifest state. -/
theorem claim_C4_witness :
    (load_service_info ARCHIVE_PATH "b1" fsNoInfo).1.1 = Json.arr [] :=
  claim_C4_amended.1 ARCHIVE_PATH "b1" fsNoInfo rfl

/-- C7: for every batch identifier absent as a top-level key of a
well-formed manifest, `process_certificates` returns false with the state
unchanged, and the only path opened during the whole run is the manifest
file itself; in particular (as long as the batch is not literally named
`INFO`, the name of the manifest file) no path at or below the staging
directory `ARCHIVE_PATH/<name>` is ever read. -/
theorem claim_C7 (name : String) (fs : FS) (m : List (String × Json))
    (hread : lookupFile fs infoPath = some (.json (.obj m)))
    (habs : ∀ kv ∈ m, kv.1 ≠ name) :
    process_certificates name fs =
      (.ok false, fs,
        [Event.readFile infoPath,
         Event.logError ("Source directory " ++ name ++ " not found in INFO file")]) ∧
    (∀ p ∈ readsOf (process_certificates name fs).2.2, p = infoPath) ∧
    (name ≠ "INFO" → ∀ rest : FPath,
      (ARCHIVE_PATH ++ [name] ++ rest) ∉ readsOf (process_certificates name fs).2.2) := by
  have hany : m.any (fun kv => kv.1 = name) = false := by
    simp only [List.any_eq_false, decide_eq_true_eq]
    exact habs
  have hload : load_service_info ARCHIVE_PATH name fs =
      ((Json.arr [], false),
        [Event.readFile infoPath,
         Event.logError ("Source directory " ++ name ++ " not found in INFO file")]) := by
    unfold load_service_info read_text
    have : ARCHIVE_PATH ++ ["INFO"] = infoPath := rfl
    rw [this, hread]
    simp [json_loads, json_contains, hany]
  have hproc : process_certificates name fs =
      (.ok false, fs,
        [Event.readFile infoPath,
         Event.logError ("Source directory " ++ name ++ " not found in INFO file")]) := by
    unfold process_certificates
    rw [hload]
  refine ⟨hproc, ?_, ?_⟩
  · rw [hproc]
    intro p hp
    simp [readsOf] at hp
    exact hp
  · intro hni rest hmem
    rw [hproc] at hmem
    simp [readsOf] at hmem
    unfold infoPath at hmem
    have h2 : name :: rest = ["INFO"] := List.append_cancel_left hmem
    rcases rest with _ | ⟨a, rest⟩
    · simp only [List.cons.injEq, and_true] at h2
      exact hni h2
    · simp at h2

/-- Witness for C7 at a well-formed manifest that does not register `b1`. -/
theorem claim_C7_witness :
    process_certificates "b1" fsNoBatch =
      (.ok false, fsNoBatch,
        [Event.readFile infoPath,
         Event.logError ("Source directory " ++ "b1" ++ " not found in INFO file")]) :=
  (claim_C7 "b1" fsNoBatch [("other", .obj [("services", .arr [])])] rfl
    (by
      intro kv hkv
      rcases List.mem_singleton.mp hkv with rfl
      decide)).1

theorem copyCert_spec (sd : FPath) (s : Json) (fs : FS) (b : Bool)
    (h : (copy_certificates sd s fs).1 = .ok b) :
    ∃ td, targetDirOf s = .ok td ∧
      attemptsOf (copy_certificates sd s fs).2.2 =
        CERT_FILES.map (fun f => (sd ++ [f], td ++ [f])) ∧
      (b = true ↔ warnsOf (copy_certificates sd s fs).2.2 = []) := by
  rcases ht : targetDirOf s with e | td
  · have hx : (copy_certificates sd s fs).1 = .error e := by
      simp [copy_certificates, ht]
    rw [hx] at h; simp at h
  · rcases hm : mkdir_p fs td with e | fs1
    · have hx : (copy_certificates sd s fs).1 = .error e := by
        simp [copy_certificates, ht, hm]
      rw [hx] at h; simp at h
    · rcases hd : json_index s "display_name" with e | dn
      · have hx : (copy_certificates sd s fs).1 = .error e := by
          simp [copy_certificates, ht, hm, hd]
        rw [hx] at h; simp at h
      · rcases hc : copy_files sd td CERT_FILES fs1 with ⟨b2, fs2, tr⟩
        have hcc : copy_certificates sd s fs =
            (.ok b2, fs2, Event.logInfo ("Copy cert for " ++ jsonToPyStr dn) :: tr) := by
          simp [copy_certificates, ht, hm, hd, hc]
        rw [hcc] at h
        have hb : b2 = b := by simpa using h
        subst hb
        have hs := copyFiles_spec sd td CERT_FILES fs1
        rw [hc] at hs
        refine ⟨td, rfl, ?_, ?_⟩
        · rw [hcc]
          simpa [attemptsOf] using hs.1
        · rw [hcc]
          simpa [warnsOf] using hs.2

/-- C3: whenever `copy_certificates` returns a boolean (rather than
raising), it attempted all three certificate files, in the fixed order of
`CERT_FILES` and with the destination paths derived from the descriptor,
and the returned boolean is true exactly when no copy failure warning was
logged, i.e. when all three files copied successfully. -/
theorem claim_C3 (sd : FPath) (s : Json) (fs : FS) (b : Bool)
    (h : (copy_certificates sd s fs).1 = .ok b) :
    ∃ td, targetDirOf s = .ok td ∧
      attemptsOf (copy_certificates sd s fs).2.2 =
        CERT_FILES.map (fun f => (sd ++ [f], td ++ [f])) ∧
      (b = true ↔ warnsOf (copy_certificates sd s fs).2.2 = []) :=
  copyCert_spec sd s fs b h

/-- Witness for C3 at a staging directory missing `privkey.pem`: the result
is false, yet all three files were attempted. -/
theorem claim_C3_witness :
    ∃ td, targetDirOf svcAcme = .ok td ∧
      attemptsOf (copy_certificates sdB1 svcAcme fsPartial).2.2 =
        CERT_FILES.map (fun f => (sdB1 ++ [f], td ++ [f])) ∧
      (false = true ↔ warnsOf (copy_certificates sdB1 svcAcme fsPartial).2.2 = []) :=
  claim_C3 sdB1 svcAcme fsPartial false rfl

/-- C10: for every descriptor whose `isPkg`, `subscriber` and `service`
fields are present (with the string types of the data model) and whose
destination chain is not blocked by an existing file, the destination
directory and all its missing parents exist in the state after the call to
`copy_certificates` — also when the call raises later (missing
`display_name`) and when every file copy fails, because `mkdir` runs before
the copy loop. -/
theorem claim_C10 (sd : FPath) (s : Json) (fs : FS) (td : FPath)
    (ht : targetDirOf s = .ok td)
    (hfree : ∀ q ∈ prefixes td, lookupFile fs q = none) :
    ∀ q ∈ prefixes td, q ∈ ((copy_certificates sd s fs).2.1).dirs := by
  have hmk : mkdir_p fs td = .ok { fs with dirs := addDirs fs.dirs (prefixes td) } := by
    unfold mkdir_p
    rw [if_neg ?hng]
    case hng =>
      simp only [List.any_eq_true, not_exists, not_and]
      intro q hq
      simp [hfree q hq]
  intro q hq
  have hmem : q ∈ addDirs fs.dirs (prefixes td) := (mem_addDirs _ _).mpr (Or.inr hq)
  rcases hd : json_index s "display_name" with e | dn
  · have hx : (copy_certificates sd s fs).2.1 =
        { fs with dirs := addDirs fs.dirs (prefixes td) } := by
      simp [copy_certificates, ht, hmk, hd]
    rw [hx]
    exact hmem
  · rcases hc : copy_files sd td CERT_FILES
        { fs with dirs := addDirs fs.dirs (prefixes td) } with ⟨b2, fs2, tr⟩
    have h21 : (copy_certificates sd s fs).2.1 = fs2 := by
      simp [copy_certificates, ht, hmk, hd, hc]
    have hdirs := copyFiles_dirs sd td CERT_FILES
        { fs with dirs := addDirs fs.dirs (prefixes td) }
    rw [hc] at hdirs
    rw [h21, hdirs]
    exact hmem

/-- Witness for C10 at a state where the staging directory does not exist:
the service result is a failure, yet the whole destination chain exists. -/
theorem claim_C10_witness :
    (BASE_PATH ++ ["acme", "web"]) ∈ ((copy_certificates sdB1 svcAcme fsC1).2.1).dirs :=
  claim_C10 sdB1 svcAcme fsC1 (BASE_PATH ++ ["acme", "web"]) rfl
    (fun q hq => by
      have hall : ∀ x ∈ prefixes (BASE_PATH ++ ["acme", "web"]),
          (lookupFile fsC1 x).isNone = true := by decide
      exact Option.isNone_iff_eq_none.mp (hall q hq))
    (BASE_PATH ++ ["acme", "web"]) (self_mem_prefixes (by decide))

theorem attemptsOf_append (t1 t2 : List Event) :
    attemptsOf (t1 ++ t2) = attemptsOf t1 ++ attemptsOf t2 := by
  induction t1 with
  | nil => rfl
  | cons e rest ih => cases e <;> simp [attemptsOf, ih]

theorem json_index_error {j : Json} {k : String} {e : Exn}
    (h : json_index j k = .error e) :
    e = .keyError k ∨ ∃ m, e = .typeError m := by
  cases j with
  | obj kvs =>
    rcases hf : kvs.find? (fun kv => kv.1 = k) with _ | kv
    · simp [json_index, hf] at h
      exact Or.inl h.symm
    · simp [json_index, hf] at h
  | null => simp [json_index] at h; exact Or.inr ⟨_, h.symm⟩
  | bool b => simp [json_index] at h; exact Or.inr ⟨_, h.symm⟩
  | num n => simp [json_index] at h; exact Or.inr ⟨_, h.symm⟩
  | str s => simp [json_index] at h; exact Or.inr ⟨_, h.symm⟩
  | arr xs => simp [json_index] at h; exact Or.inr ⟨_, h.symm⟩

theorem json_iter_error {j : Json} {e : Exn} (h : json_iter j = .error e) :
    ∃ m, e = .typeError m := by
  cases j <;> simp [json_iter] at h <;> exact ⟨_, h.symm⟩

theorem mkdir_error {fs : FS} {p : FPath} {e : Exn} (h : mkdir_p fs p = .error e) :
    e = .fileExists p := by
  unfold mkdir_p at h
  split at h
  · have := h.symm
    simp only [Except.error.injEq] at this
    exact this
  · cases h

theorem targetDirOf_error {s : Json} {e : Exn} (h : targetDirOf s = .error e) :
    (∃ k, e = .keyError k) ∨ ∃ m, e = .typeError m := by
  unfold targetDirOf at h
  rcases h1 : json_index s "isPkg" with e1 | pkg
  · simp only [h1] at h
    simp only [Except.error.injEq] at h
    subst h
    rcases json_index_error h1 with h2 | ⟨m, h2⟩
    · exact Or.inl ⟨_, h2⟩
    · exact Or.inr ⟨m, h2⟩
  · simp only [h1] at h
    rcases h2 : json_index s "subscriber" with e2 | subJ
    · simp only [h2] at h
      simp only [Except.error.injEq] at h
      subst h
      rcases json_index_error h2 with h3 | ⟨m, h3⟩
      · exact Or.inl ⟨_, h3⟩
      · exact Or.inr ⟨m, h3⟩
    · simp only [h2] at h
      cases subJ with
      | str sub =>
        rcases h3 : json_index s "service" with e3 | svcJ
        · simp only [h3] at h
          simp only [Except.error.injEq] at h
          subst h
          rcases json_index_error h3 with h4 | ⟨m, h4⟩
          · exact Or.inl ⟨_, h4⟩
          · exact Or.inr ⟨m, h4⟩
        · simp only [h3] at h
          cases svcJ with
          | str svcn => simp at h
          | null => simp only [Except.error.injEq] at h; exact Or.inr ⟨_, h.symm⟩
          | bool b => simp only [Except.error.injEq] at h; exact Or.inr ⟨_, h.symm⟩
          | num n => simp only [Except.error.injEq] at h; exact Or.inr ⟨_, h.symm⟩
          | arr xs => simp only [Except.error.injEq] at h; exact Or.inr ⟨_, h.symm⟩
          | obj kvs => simp only [Except.error.injEq] at h; exact Or.inr ⟨_, h.symm⟩
      | null => simp only [Except.error.injEq] at h; exact Or.inr ⟨_, h.symm⟩
      | bool b => simp only [Except.error.injEq] at h; exact Or.inr ⟨_, h.symm⟩
      | num n => simp only [Except.error.injEq] at h; exact Or.inr ⟨_, h.symm⟩
      | arr xs => simp only [Except.error.injEq] at h; exact Or.inr ⟨_, h.symm⟩
      | obj kvs => simp only [Except.error.injEq] at h; exact Or.inr ⟨_, h.symm⟩

theorem copyCert_error {sd : FPath} {s : Json} {fs fs1 : FS} {tr : List Event} {e : Exn}
    (h : copy_certificates sd s fs = (.error e, fs1, tr)) :
    (∃ k, e = .keyError k) ∨ (∃ m, e = .typeError m) ∨ ∃ p, e = .fileExists p := by
  rcases ht : targetDirOf s with e1 | td
  · have hx : copy_certificates sd s fs = (.error e1, fs, []) := by
      simp [copy_certificates, ht]
    rw [hx] at h
    simp only [Prod.mk.injEq] at h
    obtain ⟨he, -, -⟩ := h
    simp only [Except.error.injEq] at he
    subst he
    rcases targetDirOf_error ht with h2 | h2
    · exact Or.inl h2
    · exact Or.inr (Or.inl h2)
  · rcases hm : mkdir_p fs td with e1 | fsm
    · have hx : copy_certificates sd s fs = (.error e1, fs, []) := by
        simp [copy_certificates, ht, hm]
      rw [hx] at h
      simp only [Prod.mk.injEq] at h
      obtain ⟨he, -, -⟩ := h
      simp only [Except.error.injEq] at he
      subst he
      exact Or.inr (Or.inr ⟨_, mkdir_error hm⟩)
    · rcases hd : json_index s "display_name" with e1 | dn
      · have hx : copy_certificates sd s fs = (.error e1, fsm, []) := by
          simp [copy_certificates, ht, hm, hd]
        rw [hx] at h
        simp only [Prod.mk.injEq] at h
        obtain ⟨he, -, -⟩ := h
        simp only [Except.error.injEq] at he
        subst he
        rcases json_index_error hd with h2 | ⟨m, h2⟩
        · exact Or.inl ⟨_, h2⟩
        · exact Or.inr (Or.inl ⟨m, h2⟩)
      · rcases hc : copy_files sd td CERT_FILES fsm with ⟨b2, fs2, tr2⟩
        have hx : copy_certificates sd s fs =
            (.ok b2, fs2, Event.logInfo ("Copy cert for " ++ jsonToPyStr dn) :: tr2) := by
          simp [copy_certificates, ht, hm, hd, hc]
        rw [hx] at h
        simp only [Prod.mk.injEq] at h
        obtain ⟨he, -, -⟩ := h
        cases he

theorem runServices_error (sd : FPath) : ∀ (l : List Json) (fs fs1 : FS)
    (tr : List Event) (e : Exn),
    run_services sd l fs = (.error e, fs1, tr) →
    (∃ k, e = .keyError k) ∨ (∃ m, e = .typeError m) ∨ ∃ p, e = .fileExists p := by
  intro l
  induction l with
  | nil => intro fs fs1 tr e h; simp [run_services] at h
  | cons s rest ih =>
    intro fs fs1 tr e h
    rcases hcp : copy_certificates sd s fs with ⟨r, fsa, tra⟩
    cases r with
    | error e1 =>
      have hx : run_services sd (s :: rest) fs = (.error e1, fsa, tra) := by
        simp [run_services, hcp]
      rw [hx] at h
      simp only [Prod.mk.injEq] at h
      obtain ⟨he, -, -⟩ := h
      simp only [Except.error.injEq] at he
      subst he
      exact copyCert_error hcp
    | ok b =>
      cases b with
      | false =>
        have hx : run_services sd (s :: rest) fs = (.ok false, fsa, tra) := by
          simp [run_services, hcp]
        rw [hx] at h
        simp at h
      | true =>
        rcases hr : run_services sd rest fsa with ⟨r2, fs2, tr2⟩
        have hx : run_services sd (s :: rest) fs = (r2, fs2, tra ++ tr2) := by
          simp [run_services, hcp, hr]
        rw [hx] at h
        simp only [Prod.mk.injEq] at h
        obtain ⟨he, -, -⟩ := h
        subst he
        exact ih fsa fs2 tr2 e hr

theorem process_error {name : String} {fs fs1 : FS} {tr : List Event} {e : Exn}
    (h : process_certificates name fs = (.error e, fs1, tr)) :
    (∃ k, e = .keyError k) ∨ (∃ m, e = .typeError m) ∨ ∃ p, e = .fileExists p := by
  unfold process_certificates at h
  rcases hl : load_service_info ARCHIVE_PATH name fs with ⟨⟨svcs, ok⟩, trL⟩
  cases ok with
  | false => simp only [hl] at h; simp at h
  | true =>
    simp only [hl] at h
    rcases hi : json_iter svcs with e1 | l
    · simp only [hi] at h
      simp only [Prod.mk.injEq] at h
      obtain ⟨he, -, -⟩ := h
      simp only [Except.error.injEq] at he
      subst he
      exact Or.inr (Or.inl (json_iter_error hi))
    · simp only [hi] at h
      rcases hr : run_services (ARCHIVE_PATH ++ [name]) l fs with ⟨r2, fs2, tr2⟩
      simp only [hr] at h
      simp only [Prod.mk.injEq] at h
      obtain ⟨he, -, -⟩ := h
      subst he
      exact runServices_error _ l fs fs2 tr2 e hr

theorem runServices_true_attempts (sd : FPath) : ∀ (l : List Json) (fs : FS),
    (run_services sd l fs).1 = .ok true →
    (attemptsOf (run_services sd l fs).2.2).length = 3 * l.length := by
  intro l
  induction l with
  | nil => intro fs _; simp [run_services, attemptsOf]
  | cons s rest ih =>
    intro fs h
    rcases hcp : copy_certificates sd s fs with ⟨r, fsa, tra⟩
    cases r with
    | error e =>
      have hx : (run_services sd (s :: rest) fs).1 = .error e := by
        simp [run_services, hcp]
      rw [hx] at h
      simp at h
    | ok b =>
      cases b with
      | false =>
        have hx : (run_services sd (s :: rest) fs).1 = .ok false := by
          simp [run_services, hcp]
        rw [hx] at h
        simp at h
      | true =>
        rcases hr : run_services sd rest fsa with ⟨r2, fs2, tr2⟩
        have hx : run_services sd (s :: rest) fs = (r2, fs2, tra ++ tr2) := by
          simp [run_services, hcp, hr]
        rw [hx] at h ⊢
        have h3 : (attemptsOf tra).length = 3 := by
          have hspec := copyCert_spec sd s fs true (by rw [hcp])
          rcases hspec with ⟨td, -, hatt, -⟩
          rw [hcp] at hatt
          simp only at hatt
          rw [hatt]
          simp [CERT_FILES]
        have hrest := ih fsa (by rw [hr]; exact h)
        rw [hr] at hrest
        simp only at h hrest ⊢
        rw [attemptsOf_append, List.length_append, h3, hrest]
        simp [List.length_cons]
        ring

theorem runServices_shortCircuit (sd : FPath) (s : Json) (rest : List Json)
    (fs fs1 : FS) (tr : List Event)
    (h : copy_certificates sd s fs = (.ok false, fs1, tr)) :
    run_services sd (s :: rest) fs = (.ok false, fs1, tr) := by
  simp [run_services, h]

/-- C1 counterexample: with a resolved batch of two descriptors where the
first service fails (its staging files are missing), the second descriptor
is never invoked — its progress line is never logged and its destination
directory is never created — because `all(... for ...)` short-circuits at
the first `False`.  This refutes the claim that every descriptor is
attempted regardless of earlier failures. -/
theorem claim_C1_counterexample :
    (load_service_info ARCHIVE_PATH "b1" fsC1).1 = (.arr [svcAcme, svcBeta], true) ∧
    (process_certificates "b1" fsC1).1 = .ok false ∧
    Event.logInfo "Copy cert for SVC2" ∉ (process_certificates "b1" fsC1).2.2 ∧
    Event.logInfo "Copy cert for ACME Web" ∈ (process_certificates "b1" fsC1).2.2 ∧
    (BASE_PATH ++ ["beta", "mail"]) ∉ ((process_certificates "b1" fsC1).2.1).dirs := by
  refine ⟨rfl, rfl, ?_, ?_, ?_⟩ <;> decide

/-- C1 amended: `process_certificates` invokes the per-service copy in
manifest order only up to and including the first failing service — a
failed service ends the run at once, with the state and trace of that
failure and no events from later descriptors — while a run that returns
true did attempt every descriptor (three copy attempts per service). -/
theorem claim_C1_amended :
    (∀ (sd : FPath) (s : Json) (rest : List Json) (fs fs1 : FS) (tr : List Event),
      copy_certificates sd s fs = (.ok false, fs1, tr) →
      run_services sd (s :: rest) fs = (.ok false, fs1, tr)) ∧
    (∀ (sd : FPath) (l : List Json) (fs : FS),
      (run_services sd l fs).1 = .ok true →
      (attemptsOf (run_services sd l fs).2.2).length = 3 * l.length) :=
  ⟨runServices_shortCircuit, runServices_true_attempts⟩

/-- Witness for the amended C1: the failing first service of `fsC1` makes
the two-service run return false with exactly the first service's effects. -/
theorem claim_C1_amended_witness :
    run_services sdB1 [svcAcme, svcBeta] fsC1 =
      (.ok false, (copy_certificates sdB1 svcAcme fsC1).2.1,
        (copy_certificates sdB1 svcAcme fsC1).2.2) :=
  claim_C1_amended.1 sdB1 svcAcme [svcBeta] fsC1 _ _ rfl

/-- C2 counterexample: a well-formed invocation (one argument) over a
manifest whose resolved batch contains a descriptor without an `isPkg`
field crashes with an uncaught `KeyError` — the malformed descriptor is not
converted into a logged message and boolean outcome. -/
theorem claim_C2_counterexample :
    main_fn ["crt_cp.py", "b1"] fsC2 =
      .crashed (.keyError "isPkg") fsC2 [Event.readFile infoPath] := rfl

/-- C2 amended: manifest-resolution failures are converted into a logged
boolean outcome, and the guarded per-file copy loop never raises (for a
well-typed descriptor whose destination directory was created the call
always returns a boolean); but exceptions do escape `process_certificates`,
and every escaping exception is a `KeyError` or `TypeError` from a
malformed descriptor or non-iterable `services` value, or a
`FileExistsError` from destination-directory creation. -/
theorem claim_C2_amended :
    (∀ (name : String) (fs : FS),
      (load_service_info ARCHIVE_PATH name fs).1.2 = false →
      (process_certificates name fs).1 = .ok false) ∧
    (∀ (sd : FPath) (s : Json) (fs fsm : FS) (td : FPath) (dn : Json),
      targetDirOf s = .ok td → mkdir_p fs td = .ok fsm →
      json_index s "display_name" = .ok dn →
      ∃ b fs1 tr, copy_certificates sd s fs = (.ok b, fs1, tr)) ∧
    (∀ (name : String) (fs fs1 : FS) (tr : List Event) (e : Exn),
      process_certificates name fs = (.error e, fs1, tr) →
      (∃ k, e = .keyError k) ∨ (∃ m, e = .typeError m) ∨ ∃ p, e = .fileExists p) := by
  refine ⟨?_, ?_, fun name fs fs1 tr e h => process_error h⟩
  · intro name fs h
    unfold process_certificates
    rcases hl : load_service_info ARCHIVE_PATH name fs with ⟨⟨svcs, ok⟩, tr⟩
    rw [hl] at h
    simp only at h
    subst h
    simp [hl]
  · intro sd s fs fsm td dn ht hm hd
    rcases hc : copy_files sd td CERT_FILES fsm with ⟨b, fs2, tr⟩
    exact ⟨b, fs2, Event.logInfo ("Copy cert for " ++ jsonToPyStr dn) :: tr,
      by simp [copy_certificates, ht, hm, hd, hc]⟩

/-- Witness for the amended C2: the missing-manifest state yields the
boolean outcome false rather than an exception. -/
theorem claim_C2_witness :
    (process_certificates "nope" fsNoInfo).1 = .ok false :=
  claim_C2_amended.1 "nope" fsNoInfo rfl

/-- C6: the usage gate and exit codes of `main`: a wrong argument count
yields the usage event, exit code 1, and an untouched state; the observed
exit status is 0 exactly when the argument count is right and every service
of the batch copied all three files (the processing result is `True`); a
manifest failure or any failed file copy (result `False`) exits 1. -/
theorem claim_C6 (argv : List String) (fs : FS) :
    (argv.length ≠ 2 → main_fn argv fs = .exited 1 fs [Event.usageErr]) ∧
    (osExitCode (main_fn argv fs) = 0 ↔
      (argv.length = 2 ∧ (process_certificates (argv.getD 1 "") fs).1 = .ok true)) ∧
    (argv.length = 2 → (process_certificates (argv.getD 1 "") fs).1 = .ok false →
      osExitCode (main_fn argv fs) = 1) := by
  by_cases hl : argv.length = 2
  · rcases hp : process_certificates (argv.getD 1 "") fs with ⟨r, fs1, tr⟩
    cases r with
    | ok b =>
      have hm : main_fn argv fs = .exited (if b then 0 else 1) fs1 tr := by
        unfold main_fn
        rw [if_neg (fun hc => hc hl)]
        simp only [hp]
      cases b with
      | false =>
        refine ⟨fun hc => absurd hl hc, ?_, fun _ _ => by simp [hm, osExitCode]⟩
        rw [hm]
        simp [osExitCode, hl]
      | true =>
        refine ⟨fun hc => absurd hl hc, ?_, fun _ hfalse => ?_⟩
        · rw [hm]
          simp [osExitCode, hl]
        · simp at hfalse
    | error e =>
      have hm : main_fn argv fs = .crashed e fs1 tr := by
        unfold main_fn
        rw [if_neg (fun hc => hc hl)]
        simp only [hp]
      refine ⟨fun hc => absurd hl hc, ?_, fun _ hfalse => ?_⟩
      · rw [hm]
        simp [osExitCode, hl]
      · simp at hfalse
  · have hm : main_fn argv fs = .exited 1 fs [Event.usageErr] := by
      simp [main_fn, hl]
    refine ⟨fun _ => hm, ?_, fun hc => absurd hc hl⟩
    rw [hm]
    simp [osExitCode, hl]

/-- Witness for C6: an invocation with no batch argument exits 1 with the
usage message and no processing. -/
theorem claim_C6_witness :
    main_fn ["crt_cp.py"] fsNoInfo = .exited 1 fsNoInfo [Event.usageErr] :=
  (claim_C6 ["crt_cp.py"] fsNoInfo).1 (by decide)

/-! Evolution invariants for the copy phase, toward idempotence (C8). -/

theorem eq_dropLast_concat {p : FPath} (h : p ≠ []) :
    p = p.dropLast ++ [lastComp p] := by
  conv_lhs => rw [← List.dropLast_append_getLast h]
  congr 1
  simp [lastComp, List.getLast?_eq_getLast p h]

theorem destOf_lastComp (fs : FS) (sd td : FPath) (f : String) :
    lastComp (destOf fs (sd ++ [f]) (td ++ [f])) = f := by
  unfold destOf
  by_cases hm : (td ++ [f]) ∈ fs.dirs
  · rw [if_pos hm]
    simp [lastComp, List.getLast?_concat]
  · rw [if_neg hm]
    simp [lastComp, List.getLast?_concat]

theorem destOf_length (fs : FS) (sd td : FPath) (f : String) (htd : td.length = 6) :
    (destOf fs (sd ++ [f]) (td ++ [f])).length = 7 ∨
    (destOf fs (sd ++ [f]) (td ++ [f])).length = 8 := by
  unfold destOf
  by_cases hm : (td ++ [f]) ∈ fs.dirs
  · rw [if_pos hm]
    right
    simp [htd]
  · rw [if_neg hm]
    left
    simp [htd]

theorem evolves_refl (sd : FPath) (fs : FS) : Evolves sd fs fs :=
  ⟨fun _ h => h, fun _ h => Or.inl h, fun _ _ => rfl, fun _ _ => rfl, fun _ => Or.inl rfl⟩

theorem evolves_trans {sd : FPath} {a b c : FS}
    (h1 : Evolves sd a b) (h2 : Evolves sd b c) : Evolves sd a c := by
  obtain ⟨d1, d2, f1, f2, f3⟩ := h1
  obtain ⟨e1, e2, g1, g2, g3⟩ := h2
  refine ⟨fun q hq => e1 q (d1 q hq), ?_, ?_, ?_, ?_⟩
  · intro q hq
    rcases e2 q hq with h | h
    · exact d2 q h
    · exact Or.inr h
  · intro p hp
    rw [g1 p hp, f1 p hp]
  · intro p hp
    rw [g2 p hp, f2 p hp]
  · intro p
    rcases g3 p with h | h
    · rcases f3 p with h4 | h4
      · exact Or.inl (h.trans h4)
      · exact Or.inr (h.trans h4)
    · right
      rw [h]
      exact f2 _ (by simp [List.dropLast_concat])

theorem copy2_evolves {fs fs1 : FS} {sd td : FPath} {f : String}
    (htd : td.length = 6) (h : copy2 fs (sd ++ [f]) (td ++ [f]) = .ok fs1) :
    Evolves sd fs fs1 := by
  rcases copy2_inv h with ⟨hne, c, hsrc, hpar, hdd, rfl⟩
  set d := destOf fs (sd ++ [f]) (td ++ [f]) with hd
  have hlast : lastComp d = f := destOf_lastComp fs sd td f
  have hdlen : d.length = 7 ∨ d.length = 8 := destOf_length fs sd td f htd
  have hdne : d ≠ [] := by
    intro hnil
    rcases hdlen with h7 | h7 <;> (rw [hnil] at h7; simp at h7)
  refine ⟨fun q hq => hq, fun q hq => Or.inl hq, ?_, ?_, ?_⟩
  · intro p hp
    have hpd : p ≠ d := by
      intro he
      subst he
      rcases hdlen with h7 | h7 <;> omega
    show lookupList (setEntry d c fs.files) p = lookupList fs.files p
    rw [lookupList_setEntry, if_neg hpd]
  · intro p hdrop
    have hpd : p ≠ d := by
      intro he
      subst he
      have hdeq := eq_dropLast_concat hdne
      rw [hdrop, hlast] at hdeq
      exact hne hdeq.symm
    show lookupList (setEntry d c fs.files) p = lookupList fs.files p
    rw [lookupList_setEntry, if_neg hpd]
  · intro p
    by_cases hpd : p = d
    · right
      subst hpd
      show lookupList (setEntry d c fs.files) d = lookupList fs.files (sd ++ [lastComp d])
      rw [lookupList_setEntry, if_pos rfl, hlast]
      exact hsrc.symm
    · left
      show lookupList (setEntry d c fs.files) p = lookupList fs.files p
      rw [lookupList_setEntry, if_neg hpd]

theorem mkdir_evolves (sd : FPath) {fs fs1 : FS} {td : FPath} (htd : td.length ≤ 6)
    (h : mkdir_p fs td = .ok fs1) : Evolves sd fs fs1 := by
  rcases mkdir_inv h with ⟨-, rfl⟩
  refine ⟨?_, ?_, fun p _ => rfl, fun p _ => rfl, fun p => Or.inl rfl⟩
  · intro q hq
    exact (mem_addDirs _ _).mpr (Or.inl hq)
  · intro q hq
    rcases (mem_addDirs _ _).mp hq with h1 | h1
    · exact Or.inl h1
    · right
      have := (length_of_mem_prefixes h1).2
      omega

theorem copyFiles_evolves (sd : FPath) {td : FPath} (htd : td.length = 6) :
    ∀ (l : List String) (fs : FS), Evolves sd fs (copy_files sd td l fs).2.1 := by
  intro l
  induction l with
  | nil => intro fs; exact evolves_refl sd fs
  | cons f rest ih =>
    intro fs
    unfold copy_files
    rcases h2 : copy2 fs (sd ++ [f]) (td ++ [f]) with e | fs1
    · rcases hr : copy_files sd td rest fs with ⟨b, fs2, tr⟩
      simp only [h2, hr]
      have hi := ih fs
      rw [hr] at hi
      exact hi
    · rcases hr : copy_files sd td rest fs1 with ⟨b, fs2, tr⟩
      simp only [h2, hr]
      have hi := ih fs1
      rw [hr] at hi
      exact evolves_trans (copy2_evolves htd h2) hi

theorem targetDirOf_ok_length {s : Json} {td : FPath} (h : targetDirOf s = .ok td) :
    td.length = 6 := by
  unfold targetDirOf at h
  rcases h1 : json_index s "isPkg" with e1 | pkg
  · simp only [h1] at h; cases h
  · simp only [h1] at h
    rcases h2 : json_index s "subscriber" with e2 | subJ
    · simp only [h2] at h; cases h
    · simp only [h2] at h
      cases subJ with
      | str sub =>
        rcases h3 : json_index s "service" with e3 | svcJ
        · simp only [h3] at h; cases h
        · simp only [h3] at h
          cases svcJ with
          | str svcn =>
            simp only [Except.ok.injEq] at h
            subst h
            by_cases hp : truthy pkg <;> simp [hp, PKG_BASE_PATH, BASE_PATH]
          | null => cases h
          | bool b => cases h
          | num n => cases h
          | arr xs => cases h
          | obj kvs => cases h
      | null => cases h
      | bool b => cases h
      | num n => cases h
      | arr xs => cases h
      | obj kvs => cases h

theorem copyCert_evolves (sd : FPath) (s : Json) (fs : FS) :
    Evolves sd fs (copy_certificates sd s fs).2.1 := by
  rcases ht : targetDirOf s with e | td
  · have hx : (copy_certificates sd s fs).2.1 = fs := by simp [copy_certificates, ht]
    rw [hx]
    exact evolves_refl sd fs
  · rcases hm : mkdir_p fs td with e | fsm
    · have hx : (copy_certificates sd s fs).2.1 = fs := by simp [copy_certificates, ht, hm]
      rw [hx]
      exact evolves_refl sd fs
    · have htd : td.length = 6 := targetDirOf_ok_length ht
      rcases hd : json_index s "display_name" with e | dn
      · have hx : (copy_certificates sd s fs).2.1 = fsm := by
          simp [copy_certificates, ht, hm, hd]
        rw [hx]
        exact mkdir_evolves sd (le_of_eq htd) hm
      · rcases hc : copy_files sd td CERT_FILES fsm with ⟨b2, fs2, tr2⟩
        have hx : (copy_certificates sd s fs).2.1 = fs2 := by
          simp [copy_certificates, ht, hm, hd, hc]
        rw [hx]
        have h2 := copyFiles_evolves sd htd CERT_FILES fsm
        rw [hc] at h2
        exact evolves_trans (mkdir_evolves sd (le_of_eq htd) hm) h2

theorem runServices_evolves (sd : FPath) : ∀ (l : List Json) (fs : FS),
    Evolves sd fs (run_services sd l fs).2.1 := by
  intro l
  induction l with
  | nil => intro fs; exact evolves_refl sd fs
  | cons s rest ih =>
    intro fs
    rcases hcp : copy_certificates sd s fs with ⟨r, fsa, tra⟩
    have hev1 : Evolves sd fs fsa := by
      have hx := copyCert_evolves sd s fs
      rw [hcp] at hx
      exact hx
    cases r with
    | error e =>
      have hx : (run_services sd (s :: rest) fs).2.1 = fsa := by simp [run_services, hcp]
      rw [hx]
      exact hev1
    | ok b =>
      cases b with
      | false =>
        have hx : (run_services sd (s :: rest) fs).2.1 = fsa := by simp [run_services, hcp]
        rw [hx]
        exact hev1
      | true =>
        rcases hr : run_services sd rest fsa with ⟨r2, fs2, tr2⟩
        have hx : (run_services sd (s :: rest) fs).2.1 = fs2 := by
          simp [run_services, hcp, hr]
        rw [hx]
        have hi := ih fsa
        rw [hr] at hi
        exact evolves_trans hev1 hi

theorem copy2_stable {fs fs1 g : FS} {sd td : FPath} {f : String}
    (htd : td.length = 6)
    (hcp : copy2 fs (sd ++ [f]) (td ++ [f]) = .ok fs1)
    (hev : Evolves sd fs1 g) :
    copy2 g (sd ++ [f]) (td ++ [f]) = .ok g := by
  rcases copy2_inv hcp with ⟨hne, c, hsrc, hpar, hdd, hfs1⟩
  obtain ⟨e1, e2, f1, f2, f3⟩ := hev
  have hdirs1 : fs1.dirs = fs.dirs := by rw [hfs1]
  have hlen7 : (td ++ [f]).length = 7 := by simp [htd]
  have hmem_iff : ((td ++ [f]) ∈ g.dirs) ↔ ((td ++ [f]) ∈ fs.dirs) := by
    constructor
    · intro hq
      rcases e2 _ hq with hq2 | hq2
      · rw [hdirs1] at hq2
        exact hq2
      · omega
    · intro hq
      apply e1
      rw [hdirs1]
      exact hq
  have hdest_g : destOf g (sd ++ [f]) (td ++ [f]) = destOf fs (sd ++ [f]) (td ++ [f]) := by
    unfold destOf
    by_cases hm : (td ++ [f]) ∈ fs.dirs
    · rw [if_pos hm, if_pos (hmem_iff.mpr hm)]
    · rw [if_neg hm, if_neg (fun hc => hm (hmem_iff.mp hc))]
  set d := destOf fs (sd ++ [f]) (td ++ [f]) with hd
  have hlast : lastComp d = f := destOf_lastComp fs sd td f
  have hdlen : d.length = 7 ∨ d.length = 8 := destOf_length fs sd td f htd
  have hsrc_fs1 : lookupFile fs1 (sd ++ [f]) = some c := by
    rw [hfs1]
    show lookupList (setEntry d c fs.files) (sd ++ [f]) = some c
    rw [lookupList_setEntry, if_neg (fun hc2 => hne hc2)]
    exact hsrc
  have hsrc_g : lookupFile g (sd ++ [f]) = some c := by
    rw [f2 _ (by simp [List.dropLast_concat])]
    exact hsrc_fs1
  have hd_fs1 : lookupFile fs1 d = some c := by
    rw [hfs1]
    show lookupList (setEntry d c fs.files) d = some c
    rw [lookupList_setEntry, if_pos rfl]
  have hd_g : lookupFile g d = some c := by
    rcases f3 d with hcase | hcase
    · rw [hcase]
      exact hd_fs1
    · rw [hcase, hlast]
      exact hsrc_fs1
  have hdd_g : d ∉ g.dirs := by
    intro hq
    rcases e2 _ hq with hq2 | hq2
    · rw [hdirs1] at hq2
      exact hdd hq2
    · rcases hdlen with h7 | h7 <;> omega
  have hpar_g : d.dropLast ∈ g.dirs := by
    apply e1
    rw [hdirs1]
    exact hpar
  unfold copy2
  rw [hdest_g]
  rw [if_neg hne]
  simp only [hsrc_g]
  rw [if_pos hpar_g, if_neg hdd_g]
  have hset : setEntry d c g.files = g.files :=
    setEntry_self (show lookupList g.files d = some c from hd_g)
  rw [hset]

theorem copyFiles_stable (sd : FPath) {td : FPath} (htd : td.length = 6) :
    ∀ (l : List String) (fs g fsE : FS) (tr : List Event),
    copy_files sd td l fs = (true, fsE, tr) →
    Evolves sd fsE g →
    copy_files sd td l g = (true, g, tr) := by
  intro l
  induction l with
  | nil =>
    intro fs g fsE tr h hev
    simp only [copy_files, Prod.mk.injEq] at h
    obtain ⟨-, -, htr⟩ := h
    unfold copy_files
    rw [← htr]
  | cons f rest ih =>
    intro fs g fsE tr h hev
    unfold copy_files at h
    rcases h2 : copy2 fs (sd ++ [f]) (td ++ [f]) with e | fs1
    · simp only [h2] at h
      rcases hr : copy_files sd td rest fs with ⟨b, fs2, tr2⟩
      simp only [hr] at h
      simp only [Prod.mk.injEq] at h
      obtain ⟨hb, -, -⟩ := h
      cases hb
    · simp only [h2] at h
      rcases hr : copy_files sd td rest fs1 with ⟨b, fs2, tr2⟩
      simp only [hr] at h
      simp only [Prod.mk.injEq] at h
      obtain ⟨hb, hfs, htr⟩ := h
      subst hb
      subst hfs
      have hev1 : Evolves sd fs1 g := by
        have hre := copyFiles_evolves sd htd rest fs1
        rw [hr] at hre
        exact evolves_trans hre hev
      have hstep := copy2_stable htd h2 hev1
      have hrest := ih fs1 g fs2 tr2 (by rw [hr]) hev
      unfold copy_files
      simp only [hstep, hrest]
      rw [← htr]

theorem copyCert_true_inv {sd : FPath} {s : Json} {fs fs1 : FS} {tr : List Event}
    (h : copy_certificates sd s fs = (.ok true, fs1, tr)) :
    ∃ td fsm dn trF, targetDirOf s = .ok td ∧ mkdir_p fs td = .ok fsm ∧
      json_index s "display_name" = .ok dn ∧
      copy_files sd td CERT_FILES fsm = (true, fs1, trF) ∧
      tr = Event.logInfo ("Copy cert for " ++ jsonToPyStr dn) :: trF := by
  rcases ht : targetDirOf s with e | td
  · have hx : copy_certificates sd s fs = (.error e, fs, []) := by
      simp [copy_certificates, ht]
    rw [hx] at h
    simp at h
  · rcases hm : mkdir_p fs td with e | fsm
    · have hx : copy_certificates sd s fs = (.error e, fs, []) := by
        simp [copy_certificates, ht, hm]
      rw [hx] at h
      simp at h
    · rcases hd : json_index s "display_name" with e | dn
      · have hx : copy_certificates sd s fs = (.error e, fsm, []) := by
          simp [copy_certificates, ht, hm, hd]
        rw [hx] at h
        simp at h
      · rcases hc : copy_files sd td CERT_FILES fsm with ⟨b2, fs2, tr2⟩
        have hx : copy_certificates sd s fs =
            (.ok b2, fs2, Event.logInfo ("Copy cert for " ++ jsonToPyStr dn) :: tr2) := by
          simp [copy_certificates, ht, hm, hd, hc]
        rw [hx] at h
        simp only [Prod.mk.injEq] at h
        obtain ⟨hb, hfs, htr⟩ := h
        simp only [Except.ok.injEq] at hb
        subst hb
        subst hfs
        exact ⟨td, fsm, dn, tr2, rfl, hm, rfl, hc, htr.symm⟩

theorem copyCert_stable {sd : FPath} {s : Json} {fs fs1 g : FS} {tr : List Event}
    (h : copy_certificates sd s fs = (.ok true, fs1, tr))
    (hev : Evolves sd fs1 g) :
    copy_certificates sd s g = (.ok true, g, tr) := by
  rcases copyCert_true_inv h with ⟨td, fsm, dn, trF, ht, hm, hd, hc, htr⟩
  have htd := targetDirOf_ok_length ht
  rcases mkdir_inv hm with ⟨hfree, hfsm⟩
  have hevF : Evolves sd fsm fs1 := by
    have hx := copyFiles_evolves sd htd CERT_FILES fsm
    rw [hc] at hx
    exact hx
  have hevm : Evolves sd fsm g := evolves_trans hevF hev
  have hdirs_sub : ∀ q ∈ prefixes td, q ∈ g.dirs := by
    intro q hq
    apply hevm.1
    rw [hfsm]
    exact (mem_addDirs _ _).mpr (Or.inr hq)
  have hfree_g : ∀ q ∈ prefixes td, lookupFile g q = none := by
    intro q hq
    have hlen := (length_of_mem_prefixes hq).2
    rw [htd] at hlen
    rw [hevm.2.2.1 q hlen]
    rw [hfsm]
    exact hfree q hq
  have hmk_g : mkdir_p g td = .ok g := mkdir_noop hdirs_sub hfree_g
  have hcf_g : copy_files sd td CERT_FILES g = (true, g, trF) :=
    copyFiles_stable sd htd CERT_FILES fsm g fs1 trF hc hev
  have hx : copy_certificates sd s g =
      (.ok true, g, Event.logInfo ("Copy cert for " ++ jsonToPyStr dn) :: trF) := by
    simp [copy_certificates, ht, hmk_g, hd, hcf_g]
  rw [hx, htr]

theorem runServices_stable (sd : FPath) : ∀ (l : List Json) (fs fsE : FS) (tr : List Event),
    run_services sd l fs = (.ok true, fsE, tr) →
    run_services sd l fsE = (.ok true, fsE, tr) := by
  intro l
  induction l with
  | nil =>
    intro fs fsE tr h
    simp only [run_services, Prod.mk.injEq] at h
    obtain ⟨-, hfs, htr⟩ := h
    subst hfs
    unfold run_services
    rw [← htr]
  | cons s rest ih =>
    intro fs fsE tr h
    rcases hcp : copy_certificates sd s fs with ⟨r, fsa, tra⟩
    cases r with
    | error e =>
      have hx : run_services sd (s :: rest) fs = (.error e, fsa, tra) := by
        simp [run_services, hcp]
      rw [hx] at h
      simp at h
    | ok b =>
      cases b with
      | false =>
        have hx : run_services sd (s :: rest) fs = (.ok false, fsa, tra) := by
          simp [run_services, hcp]
        rw [hx] at h
        simp at h
      | true =>
        rcases hr : run_services sd rest fsa with ⟨r2, fs2, tr2⟩
        have hx : run_services sd (s :: rest) fs = (r2, fs2, tra ++ tr2) := by
          simp [run_services, hcp, hr]
        rw [hx] at h
        simp only [Prod.mk.injEq] at h
        obtain ⟨hr2, hfs2, htr⟩ := h
        subst hr2
        subst hfs2
        have hevRest : Evolves sd fsa fs2 := by
          have hx2 := runServices_evolves sd rest fsa
          rw [hr] at hx2
          exact hx2
        have hstep := copyCert_stable hcp hevRest
        have hrest := ih fsa fs2 tr2 hr
        have hx3 : run_services sd (s :: rest) fs2 = (.ok true, fs2, tra ++ tr2) := by
          simp [run_services, hstep, hrest]
        rw [hx3, ← htr]

theorem load_success_inv {ap : FPath} {name : String} {fs : FS} {svcs : Json}
    {trL : List Event}
    (h : load_service_info ap name fs = ((svcs, true), trL)) :
    ∃ content, lookupFile fs (ap ++ ["INFO"]) = some content ∧
      ∀ g : FS, lookupFile g (ap ++ ["INFO"]) = some content →
        load_service_info ap name g = ((svcs, true), trL) := by
  unfold load_service_info read_text at h
  rcases hc : lookupFile fs (ap ++ ["INFO"]) with _ | content
  · simp only [hc] at h
    by_cases hdm : (ap ++ ["INFO"]) ∈ fs.dirs
    · rw [if_pos hdm] at h
      simp at h
    · rw [if_neg hdm] at h
      simp at h
  · simp only [hc] at h
    refine ⟨content, rfl, ?_⟩
    intro g hg
    unfold load_service_info read_text
    simp only [hg]
    exact h

theorem process_stable {name : String} {fs fsE : FS} {tr : List Event}
    (h : process_certificates name fs = (.ok true, fsE, tr)) :
    process_certificates name fsE = (.ok true, fsE, tr) := by
  unfold process_certificates at h ⊢
  rcases hl : load_service_info ARCHIVE_PATH name fs with ⟨⟨svcs, ok⟩, trL⟩
  cases ok with
  | false =>
    simp only [hl] at h
    simp at h
  | true =>
    simp only [hl] at h
    rcases hi : json_iter svcs with e | l
    · simp only [hi] at h
      simp at h
    · simp only [hi] at h
      rcases hr : run_services (ARCHIVE_PATH ++ [name]) l fs with ⟨r2, fs2, tr2⟩
      simp only [hr] at h
      simp only [Prod.mk.injEq] at h
      obtain ⟨hr2, hfs2, htr⟩ := h
      subst hr2
      subst hfs2
      have hev : Evolves (ARCHIVE_PATH ++ [name]) fs fs2 := by
        have hx := runServices_evolves (ARCHIVE_PATH ++ [name]) l fs
        rw [hr] at hx
        exact hx
      rcases load_success_inv hl with ⟨content, hcont, hsame⟩
      have hlen : (ARCHIVE_PATH ++ ["INFO"]).length ≤ 6 := by
        simp [ARCHIVE_PATH, BASE_PATH]
      have hcont2 : lookupFile fs2 (ARCHIVE_PATH ++ ["INFO"]) = some content := by
        rw [hev.2.2.1 _ hlen]
        exact hcont
      have hload2 := hsame fs2 hcont2
      have hrun2 := runServices_stable (ARCHIVE_PATH ++ [name]) l fs fs2 tr2 hr
      simp only [hload2, hi, hrun2]
      rw [← htr]

/-- C8: idempotence of a successful batch.  If `process_certificates`
returns true from state `fs` with final state `fs1`, then re-running it on
`fs1` (staging content unchanged — a successful run never writes into the
staging directory or the manifest) returns true again, leaves the state
exactly `fs1` (identical destination file contents), and emits the same
events. -/
theorem claim_C8 (name : String) (fs fs1 : FS) (tr : List Event)
    (h : process_certificates name fs = (.ok true, fs1, tr)) :
    process_certificates name fs1 = (.ok true, fs1, tr) :=
  process_stable h

/-- Witness for C8 at a fully staged one-service batch. -/
theorem claim_C8_witness :
    process_certificates "b1" (process_certificates "b1" fsFull).2.1 =
      (.ok true, (process_certificates "b1" fsFull).2.1,
        (process_certificates "b1" fsFull).2.2) :=
  claim_C8 "b1" fsFull _ _ rfl
